import Mathlib

/-!
Verification development for the droppa file-transfer server.

The definitions below are a shallow embedding of the progress-broadcast and
transfer-coordination core of the repository.  Unless stated otherwise each
definition is translated from `src/back/main.rs`; the two definitions taken
from the alternative `src/main.rs` implementation are marked as such.
Machine integers (`usize`, `u8`, `u64`) are modelled as `Nat`; the only
arithmetic in scope stays far below the word size, and the single `as u8`
cast in the source is applied to a value already clamped to at most 100.
A Rust integer division by a zero divisor panics; the model makes that case
an explicit `crash` outcome.  The concurrent `DashMap` of clients is
modelled as an association list keyed by file name.
-/

namespace Droppa

/-- `const GIG: usize = 1024 * 1024 * 1024;` from src/back/main.rs. -/
def GIG : Nat := 1024 * 1024 * 1024

/-- `const SIZE_LIMIT: usize = GIG * 1;` from src/back/main.rs. -/
def SIZE_LIMIT : Nat := GIG * 1

/-- The registry record behind `struct Client` (src/back/main.rs, lines 72-79).
The fields read or written by the modelled core are kept: `size`, `progress`
and `mobile`.  The `sender` watch channel is modelled by collecting the values
sent on it into lists; `ip` and `uuid` are never read by the modelled core. -/
structure Client where
  size : Nat
  progress : Nat
  mobile : Bool
  deriving DecidableEq, Repr

/-- The `clients` DashMap, modelled as an association list. -/
abbrev Clients := List (String × Client)

/-- Lookup by key, the model of `clients.get_mut(name)`. -/
def clientsLookup (cs : Clients) (k : String) : Option Client :=
  match cs with
  | [] => none
  | (k', c) :: rest => if k' = k then some c else clientsLookup rest k

/-- The in-place mutation `ps.size = size; ps.progress = progress;` performed
on the entry found by `get_mut` (src/back/main.rs, lines 159-160). -/
def clientsUpdate (cs : Clients) (k : String) (sz p : Nat) : Clients :=
  match cs with
  | [] => []
  | (k', c) :: rest =>
    if k' = k then (k', { c with size := sz, progress := p }) :: rest
    else (k', c) :: clientsUpdate rest k sz p

/-- `(bytes.len() * 100 / size).min(100)` (src/back/main.rs, line 152).
The `as u8` cast is a no-op on the model since the value is at most 100. -/
def chunkProgress (sz len : Nat) : Nat := (len * 100 / sz).min 100

/-- One iteration of the `try_fold` over the chunks of the `file` field
(src/back/main.rs, lines 150-173): extend the accumulated bytes, recompute
the progress, and on a multiple of 5 look the transfer up in the registry
-- a missing key yields `Err(MultipartError::Incomplete)`, modelled as
`Except.error ()` -- store the new size and progress and push the progress
value on the per-transfer watch sender (the optional returned value).  The
best-effort `pp.try_send(())` ping has its result discarded by the source
and does not affect the state or the returned value, so it is omitted. -/
def chunkStep (sz : Nat) (key : String) (cs : Clients) (bytes chunk : List Nat) :
    Except Unit (Clients × List Nat × Option Nat) :=
  let bytes' := bytes ++ chunk
  let p := chunkProgress sz bytes'.length
  if p % 5 = 0 then
    match clientsLookup cs key with
    | none => .error ()
    | some _ => .ok (clientsUpdate cs key sz p, bytes', some p)
  else
    .ok (cs, bytes', none)

/-- The whole `try_fold` over the chunk stream of one `file` field,
accumulating the list of values pushed on the per-transfer notifier. -/
def foldChunks (sz : Nat) (key : String) :
    Clients → List Nat → List Nat → List (List Nat) → Except Unit (Clients × List Nat × List Nat)
  | cs, bytes, pushed, [] => .ok (cs, bytes, pushed)
  | cs, bytes, pushed, c :: rest =>
    match chunkStep sz key cs bytes c with
    | .error e => .error e
    | .ok (cs', bytes', opt) => foldChunks sz key cs' bytes' (pushed ++ opt.toList) rest

/-- A multipart field as seen by the `while let Some(Ok(field))` loop of
`File::from_multipart`: either the textual `size` field or any other field,
carrying an optional filename and a chunked byte stream. -/
inductive MpField where
  | sizeField (parsed : Option Nat)
  | fileField (filename : Option String) (chunks : List (List Nat))
  deriving DecidableEq, Repr

/-- Outcome of processing the `size` field (src/back/main.rs, lines 108-134). -/
inductive SizeOutcome where
  | crash
  | fail (msg : String)
  | ok (sz : Nat)
  deriving DecidableEq, Repr

/-- Processing of the `size` field, in source order (src/back/main.rs,
lines 108-134).  The result of `buf.parse::<usize>().ok()` on the
accumulated field text is the `parsed` argument (the standard-library
base-10 parse itself is taken as given); a failed parse yields the
`invalid size field` error.  Then `let u8_reserve = size / size_of::<u8>()`
(that is, `size / 1`), then `bytes.try_reserve_exact(size / u8_reserve)` --
note the divisor: when the declared size is 0 this divides by zero, which
panics in Rust and is modelled as `crash`; the allocation outcome is the
`allocFails` parameter -- and finally the `size > SIZE_LIMIT` ceiling check. -/
def processSizeField (allocFails : Bool) (parsed : Option Nat) : SizeOutcome :=
  match parsed with
  | none => .fail "invalid size field"
  | some sz =>
    let u8Reserve := sz / 1
    if u8Reserve = 0 then .crash
    else if allocFails then .fail "could not reserve memory"
    else if sz > SIZE_LIMIT then .fail "file size exceeds limit, returning bad request.."
    else .ok sz

/-- The argument actually passed to `try_reserve_exact`: `size / u8_reserve`
with `u8_reserve = size / 1`; `none` models the division-by-zero panic. -/
def reserveRequest (sz : Nat) : Option Nat :=
  let u8Reserve := sz / 1
  if u8Reserve = 0 then none else some (sz / u8Reserve)

/-- The mutable state of the `from_multipart` field loop:
`size`, `bytes` and `name` from src/back/main.rs lines 104-106, together with
the registry and the list of all values pushed on per-transfer notifiers. -/
structure LoopState where
  size : Option Nat
  bytes : List Nat
  name : String
  clients : Clients
  pushed : List Nat
  deriving DecidableEq, Repr

/-- Result of the field loop before the final unchecked unwrap. -/
inductive LoopOut where
  | crash
  | err (msg : String)
  | done (st : LoopState)
  deriving DecidableEq, Repr

/-- The `while let Some(Ok(field))` loop of `File::from_multipart`
(src/back/main.rs, lines 107-175).  A `size`-named field is parsed and
reserved; any other field requires `size` to be set already, requires a
filename, and folds its chunk stream, with a fold failure surfaced as the
string `error reading file field` (the `map_err` on line 173).  Note that
`bytes` and the registry carry over from one field to the next. -/
def loopGo (allocFails : Bool) : LoopState → List MpField → LoopOut
  | st, [] => .done st
  | st, .sizeField parsed :: rest =>
    match processSizeField allocFails parsed with
    | .crash => .crash
    | .fail m => .err m
    | .ok sz => loopGo allocFails { st with size := some sz } rest
  | st, .fileField filename chunks :: rest =>
    match st.size with
    | none => .err "`size` field must go first, not the `file` one"
    | some sz =>
      match filename with
      | none => .err "`file` field does not have a filename"
      | some n =>
        match foldChunks sz n st.clients st.bytes [] chunks with
        | .error _ => .err "error reading file field"
        | .ok (cs', bytes', pushedNew) =>
          loopGo allocFails
            { st with name := n, clients := cs', bytes := bytes',
                      pushed := st.pushed ++ pushedNew } rest

/-- `struct File` (src/back/main.rs, lines 96-100). -/
structure File where
  size : Nat
  name : String
  bytes : List Nat
  deriving DecidableEq, Repr

/-- Result of `File::from_multipart`.  `ub` marks the final
`size.unwrap_unchecked()` on line 177 being reached with `size = None`,
which is undefined behavior in the source. -/
inductive MpOutcome where
  | crash
  | err (msg : String)
  | ub
  | ok (f : File)
  deriving DecidableEq, Repr

/-- `File::from_multipart` (src/back/main.rs, lines 103-178): run the field
loop from the empty initial state and build the `File` from the unchecked
unwrap of the declared size. -/
def from_multipart (allocFails : Bool) (clients : Clients) (fields : List MpField) : MpOutcome :=
  match loopGo allocFails ⟨none, [], "", clients, []⟩ fields with
  | .crash => .crash
  | .err m => .err m
  | .done st =>
    match st.size with
    | some sz => .ok ⟨sz, st.name, st.bytes⟩
    | none => .ub

/-- The `upload_desktop` handler (src/back/main.rs, lines 302-318), viewed
from the outcome of `File::from_multipart`: a parse error becomes status 400
with the error text as plaintext body, success pushes the file onto the
staging vector and answers 200; a crash or undefined behavior inside the
parser produces no response (`none`).  The result is
(status, body, staged files). -/
def uploadDesktopResponse (parse : MpOutcome) (files : List File) :
    Option (Nat × String × List File) :=
  match parse with
  | .crash => none
  | .ub => none
  | .err e => some (400, e, files)
  | .ok f => some (200, "", files ++ [f])

/-- The `upload_mobile` handler (src/back/main.rs, lines 320-367).  After a
successful parse the byte copy runs inside `spawn_blocking`; its awaited
value is `Result<Result<(), String>, JoinError>` and the source matches only
the outer `Err` (`if let Err(e) = ... .await`), answering 303 See Other.
When the blocking task itself completes, the handler answers 200 regardless
of the inner `Result` carrying the file-creation or write error. -/
def uploadMobileResponse (parse : MpOutcome)
    (write : Except String (Except String Unit)) : Option (Nat × String) :=
  match parse with
  | .crash => none
  | .ub => none
  | .err e => some (400, e)
  | .ok _ =>
    match write with
    | .error je => some (303, "error copying bytes: " ++ je)
    | .ok _ => some (200, "")

/-- Observable events of the `download_files` handler on the staging store
lock (`state.files`): acquisitions and releases of that mutex, the size/count
snapshot, and the per-file archive operations. -/
inductive Ev where
  | lock
  | unlock
  | snapshot (size len : Nat)
  | startFile (name : String)
  | compressWrite (n : Nat)
  | finishArchive
  deriving DecidableEq, Repr

/-- The `start_file`/`write_all` pairs of the compression loop
(src/back/main.rs, lines 434-437). -/
def compressEvents (files : List File) : List Ev :=
  match files with
  | [] => []
  | f :: rest => Ev.startFile f.name :: Ev.compressWrite f.bytes.length :: compressEvents rest

/-- The event trace of the blocking closure of `download_files`
(src/back/main.rs, lines 413-445): a first lock scoped to the size/count
snapshot (lines 414-418), then a second `files.lock()` (line 433) held across
the whole compression loop and released before `zip.writer.finish()`. -/
def download_files_trace (files : List File) : List Ev :=
  Ev.lock :: Ev.snapshot ((files.map File.size).sum) files.length :: Ev.unlock ::
    Ev.lock :: (compressEvents files ++ [Ev.unlock, Ev.finishArchive])

/-- Decides, tracking the lock depth, that no compression write happens
while the staging store lock is held (the property claimed by the spec). -/
def noWriteWhileLocked : Nat → List Ev → Bool
  | _, [] => true
  | d, Ev.lock :: tr => noWriteWhileLocked (d + 1) tr
  | d, Ev.unlock :: tr => noWriteWhileLocked (d - 1) tr
  | d, Ev.compressWrite _ :: tr => (d == 0) && noWriteWhileLocked d tr
  | d, _ :: tr => noWriteWhileLocked d tr

/-- Decides, tracking the lock depth, that every compression write happens
while the staging store lock is held. -/
def writesUnderLock : Nat → List Ev → Bool
  | _, [] => true
  | d, Ev.lock :: tr => writesUnderLock (d + 1) tr
  | d, Ev.unlock :: tr => writesUnderLock (d - 1) tr
  | d, Ev.compressWrite _ :: tr => (d != 0) && writesUnderLock d tr
  | d, _ :: tr => writesUnderLock d tr

/-- `ProgressTracker::progress` from the alternative implementation
src/main.rs, lines 112-119 (`u64` arithmetic): written and total size give
100 outright once `written >= total_size - 1`, otherwise
`(written * 100 / total_size).min(100)`. -/
def mainProgress (written total_size : Nat) : Nat :=
  if total_size - 1 ≤ written then 100
  else (written * 100 / total_size).min 100

/-- `ProgressTracker::report_progress_if_needed` from src/main.rs, lines
99-110: the value pushed to the subscribed client, if any -- the computed
progress is pushed exactly when it is a multiple of 5. -/
def mainReport (written total_size : Nat) : Option Nat :=
  let p := mainProgress written total_size
  if p % 5 = 0 then some p else none

/-- Messages observable on a subscriber channel of one broadcast class. -/
inductive SlotMsg where
  | replaced
  | snap (data : String)
  deriving DecidableEq, Repr

/-- Operations on one broadcast class of `stream_progress`
(src/back/main.rs, lines 468-543): a subscription request, or one pump tick
that drained the dirty signal and pushes a snapshot. -/
inductive SlotOp where
  | subscribe (ch : Nat)
  | tick (data : String)
  deriving DecidableEq, Repr

/-- State of one broadcast class: the channel installed in the streamer slot
(`None` before the first subscription), the number of pump tasks spawned so
far, and the ordered log of messages delivered to channels. -/
structure SlotState where
  slot : Option Nat
  pumps : Nat
  msgs : List (Nat × SlotMsg)
  deriving DecidableEq, Repr

/-- The slot before any subscription: streamer `None`, no pump task. -/
def initSlot : SlotState := ⟨none, 0, []⟩

/-- One atomic step of a broadcast class.  A subscription finding the slot
occupied sends `CONNECTION_REPLACED` on the old channel and installs the new
one inside the same critical section and returns without spawning
(src/back/main.rs, lines 475-486); finding it empty it installs the channel
and falls through to spawn exactly one pump task (lines 488-534).  A pump
tick resolves its sink through the slot at that moment and pushes the
snapshot to it. -/
def slotStep (st : SlotState) : SlotOp → SlotState
  | .subscribe c =>
    match st.slot with
    | some old => { st with slot := some c, msgs := st.msgs ++ [(old, SlotMsg.replaced)] }
    | none => { st with slot := some c, pumps := st.pumps + 1 }
  | .tick d =>
    match st.slot with
    | some ch => { st with msgs := st.msgs ++ [(ch, SlotMsg.snap d)] }
    | none => st

/-- A sequence of operations on one broadcast class. -/
def runSlot (st : SlotState) (ops : List SlotOp) : SlotState := ops.foldl slotStep st

/-- `enum Transmission` (src/back/main.rs, line 183). -/
inductive Transmission where
  | mobile
  | zipping
  | desktop
  deriving DecidableEq, Repr

/-- `struct TrackFile` (src/back/main.rs, lines 64-69). -/
structure TrackFile where
  size : Nat
  name : String
  progress : Nat
  deriving DecidableEq, Repr

/-- The snapshot built by a device-class pump tick after draining the dirty
signal (src/back/main.rs, lines 522-525): the registry entries whose
`mobile` flag differs from the pump class, mapped to `TrackFile` records. -/
def pumpSnapshot (t : Transmission) (clients : Clients) : List TrackFile :=
  let mobileFlag := match t with | Transmission.mobile => true | _ => false
  (clients.filter fun p => p.2.mobile != mobileFlag).map
    fun p => ⟨p.2.size, p.1, p.2.progress⟩

/-- One tick of the device-class pump loop (src/back/main.rs, lines 515-532):
if `rx.try_recv()` yielded nothing the tick sleeps and touches no registry
entry (`none`); otherwise it builds and pushes the complement snapshot. -/
def pumpTick (t : Transmission) (dirty : Option Unit) (clients : Clients) :
    Option (List TrackFile) :=
  match dirty with
  | none => none
  | some _ => some (pumpSnapshot t clients)

/-! ## Helper lemmas -/

theorem clientsLookup_update (cs : Clients) (k : String) (sz p : Nat) :
    clientsLookup (clientsUpdate cs k sz p) k
      = (clientsLookup cs k).map fun c => { c with size := sz, progress := p } := by
  induction cs with
  | nil => rfl
  | cons e rest ih =>
    obtain ⟨k', c⟩ := e
    by_cases h : k' = k
    · simp [clientsUpdate, clientsLookup, h]
    · simp [clientsUpdate, clientsLookup, h, ih]

theorem chunkStep_push (sz : Nat) (key : String) (cs : Clients) (bytes chunk : List Nat)
    (cl : Client) (h5 : chunkProgress sz (bytes ++ chunk).length % 5 = 0)
    (hcl : clientsLookup cs key = some cl) :
    chunkStep sz key cs bytes chunk
      = .ok (clientsUpdate cs key sz (chunkProgress sz (bytes ++ chunk).length),
             bytes ++ chunk, some (chunkProgress sz (bytes ++ chunk).length)) := by
  have h5' : chunkProgress sz (bytes.length + chunk.length) % 5 = 0 := by simpa using h5
  simp [chunkStep, h5', hcl]

theorem chunkStep_skip (sz : Nat) (key : String) (cs : Clients) (bytes chunk : List Nat)
    (h5 : ¬ chunkProgress sz (bytes ++ chunk).length % 5 = 0) :
    chunkStep sz key cs bytes chunk = .ok (cs, bytes ++ chunk, none) := by
  have h5' : ¬ chunkProgress sz (bytes.length + chunk.length) % 5 = 0 := by simpa using h5
  simp [chunkStep, h5']

theorem chunkStep_miss (sz : Nat) (key : String) (cs : Clients) (bytes chunk : List Nat)
    (h5 : chunkProgress sz (bytes ++ chunk).length % 5 = 0)
    (hcl : clientsLookup cs key = none) :
    chunkStep sz key cs bytes chunk = .error () := by
  have h5' : chunkProgress sz (bytes.length + chunk.length) % 5 = 0 := by simpa using h5
  simp [chunkStep, h5', hcl]

theorem chunkProgress_mono (sz : Nat) {a b : Nat} (h : a ≤ b) :
    chunkProgress sz a ≤ chunkProgress sz b := by
  have hd : a * 100 / sz ≤ b * 100 / sz := Nat.div_le_div_right (by omega)
  simp only [chunkProgress, Nat.min_def]
  split <;> split <;> omega

theorem chunkProgress_total (sz : Nat) (h : 1 ≤ sz) : chunkProgress sz sz = 100 := by
  unfold chunkProgress
  rw [Nat.mul_div_right 100 (by omega)]
  simp

/-! ## Claims -/

/-- C10: the claim states that whenever ingest parsing returns a completed
`File`, a `size` field was present, equivalently that the `None` branch of
the unchecked unwrap on line 177 of src/back/main.rs is unreachable, in
particular for a multipart body with no fields at all.  The code is wrong:
for a body with zero fields the field loop never runs, `size` stays `None`,
and `size.unwrap_unchecked()` is executed on `None` (undefined behavior),
the `ub` outcome of the model. -/
theorem c10_evidence : from_multipart false [] [] = MpOutcome.ub := rfl

/-- C4: the claim states that ingest pre-reserves a buffer whose capacity
equals the declared size and never panics, for any declared size including 0.
The code computes `u8_reserve = size / 1` and then reserves
`size / u8_reserve`: for declared size `0` this divides by zero and panics
(the `crash` outcome), and for declared size `2` the reserved capacity is
`2 / 2 = 1`, not the declared `2`.  A valid nonzero size within the limit is
accepted. -/
theorem c4_evidence :
    processSizeField false (some 0) = SizeOutcome.crash ∧
    reserveRequest 0 = none ∧
    reserveRequest 2 = some 1 ∧
    processSizeField false (some 2) = SizeOutcome.ok 2 := by
  refine ⟨?_, rfl, rfl, ?_⟩ <;> decide

/-- C1 counterexample: the claim states that a 5-percent-boundary progress
update whose key is absent from the registry is non-fatal and ingest
completes.  On the code, an upload of declared size 20 whose first 1-byte
chunk puts progress at 5 with an empty registry makes the chunk fold return
`Err(MultipartError::Incomplete)`, and `from_multipart` fails with
`error reading file field`: the missing key aborts the ingest. -/
theorem c1_counterexample :
    from_multipart false []
        [MpField.sizeField (some 20), MpField.fileField (some "a.txt") [[7]]]
      = MpOutcome.err "error reading file field" := by decide

/-- C1 amended: whenever a chunk brings the computed progress to a multiple
of 5 and the filename key is absent from the registry, the ingest does not
continue: the fold aborts and `from_multipart` returns the error
`error reading file field` (surfaced by the upload handlers as a 400). -/
theorem c1_amended (af : Bool) (cs : Clients) (parsed : Option Nat) (sz : Nat)
    (n : String) (chunk : List Nat)
    (hparse : processSizeField af parsed = SizeOutcome.ok sz)
    (hmiss : clientsLookup cs n = none)
    (hfive : chunkProgress sz chunk.length % 5 = 0) :
    from_multipart af cs [MpField.sizeField parsed, MpField.fileField (some n) [chunk]]
      = MpOutcome.err "error reading file field" := by
  have hstep : chunkStep sz n cs [] chunk = .error () :=
    chunkStep_miss sz n cs [] chunk (by simpa using hfive) hmiss
  simp [from_multipart, loopGo, hparse, foldChunks, hstep]

/-- Witness for the amended C1 at a concrete input. -/
theorem c1_amended_witness :
    from_multipart false []
        [MpField.sizeField (some 10), MpField.fileField (some "b") [[3]]]
      = MpOutcome.err "error reading file field" :=
  c1_amended false [] (some 10) 10 "b" [3] (by decide) rfl (by decide)

/-- C2 counterexample: the claim states that no reachable state has the
packaging engine holding the staging store lock during a compression write.
On the code, already for a single staged one-byte file the trace of
`download_files` performs its compression write while the re-acquired
`files` lock is held. -/
theorem c2_counterexample :
    noWriteWhileLocked 0 (download_files_trace [⟨1, "a", [0]⟩]) = false := rfl

/-- All compression events happen at positive lock depth once the second
lock has been acquired. -/
theorem writesUnderLock_compress (files : List File) (tr : List Ev) :
    writesUnderLock 1 (compressEvents files ++ tr) = writesUnderLock 1 tr := by
  induction files with
  | nil => rfl
  | cons f rest ih => simp [compressEvents, writesUnderLock, ih]

/-- C2 amended: in `download_files` the first staging-store lock is
short-lived and scoped to the size/count snapshot (no compression write
happens in that section), but the lock is then re-acquired and every
compression write in the trace occurs while it is held; it is released only
before the archive is finalized. -/
theorem c2_amended (files : List File) :
    writesUnderLock 0 (download_files_trace files) = true ∧
    noWriteWhileLocked 0
      [Ev.lock, Ev.snapshot ((files.map File.size).sum) files.length, Ev.unlock] = true := by
  refine ⟨?_, rfl⟩
  simp only [download_files_trace, writesUnderLock]
  show writesUnderLock 1 (compressEvents files ++ [Ev.unlock, Ev.finishArchive]) = true
  rw [writesUnderLock_compress]
  rfl

/-- C3 counterexample: the claim states the upload endpoint answers 400 on
every ingest failure, including failures of the final write-to-storage step.
On the code, the blocking write task returns `Ok(Err(msg))` when file
creation or the byte copy fails, the handler matches only the outer `Err`,
and the response is 200 with an empty body. -/
theorem c3_counterexample :
    uploadMobileResponse (MpOutcome.ok ⟨1048576, "report.pdf", [7]⟩)
      (Except.ok (Except.error "could not create file: report.pdf: permission denied"))
      = some (200, "") := rfl

/-- C3 amended: multipart/ingest-parse failures are answered 400 with the
error text as plaintext body on both upload endpoints, and a successful
parse on the desktop endpoint stages the file and answers 200; however on
the mobile endpoint a failure of the final storage write is discarded (the
response is 200 whenever the blocking task joins, even if its inner result
is an error), and a join failure of the blocking task is answered 303 See
Other, not 400. -/
theorem c3_amended :
    (∀ af cs fields write e, from_multipart af cs fields = MpOutcome.err e →
        uploadMobileResponse (from_multipart af cs fields) write = some (400, e)) ∧
    (∀ f je, uploadMobileResponse (MpOutcome.ok f) (Except.error je)
        = some (303, "error copying bytes: " ++ je)) ∧
    (∀ f r, uploadMobileResponse (MpOutcome.ok f) (Except.ok r) = some (200, "")) ∧
    (∀ e files, uploadDesktopResponse (MpOutcome.err e) files = some (400, e, files)) ∧
    (∀ f files, uploadDesktopResponse (MpOutcome.ok f) files = some (200, "", files ++ [f])) := by
  refine ⟨?_, fun _ _ => rfl, fun _ _ => rfl, fun _ _ => rfl, fun _ _ => rfl⟩
  intro af cs fields write e h
  rw [h]
  rfl

/-- Witness for the amended C3 at concrete inputs. -/
theorem c3_witness :
    uploadMobileResponse (from_multipart false [] [MpField.sizeField none])
      (Except.ok (Except.ok ())) = some (400, "invalid size field") ∧
    uploadMobileResponse (MpOutcome.ok ⟨1, "a", [7]⟩) (Except.error "task join error")
      = some (303, "error copying bytes: " ++ "task join error") :=
  ⟨c3_amended.1 false [] [MpField.sizeField none] (Except.ok (Except.ok ()))
      "invalid size field" rfl,
   c3_amended.2.1 ⟨1, "a", [7]⟩ "task join error"⟩

/-- C5 counterexample: the claim states the computed, stored and pushed
progress is `min(100, floor(bytes_written * 100 / total_size))`.  The
progress tracker of src/main.rs at `written = 199, total_size = 200`
computes and pushes 100 (its `written >= total_size - 1` special case),
while the claimed formula gives 99. -/
theorem c5_counterexample :
    mainReport 199 200 = some 100 ∧ Nat.min 100 (199 * 100 / 200) = 99 := by decide

/-- C5 amended: when the back-end ingest performs a registry update (that
is, when the freshly computed progress is a multiple of 5 and the key is
registered) it stores and pushes exactly
`min(floor(bytes * 100 / total), 100)`; the src/main.rs tracker computes
that same value whenever `written + 1 < total_size` or
`written >= total_size`, but reports 100 outright at
`written = total_size - 1`. -/
theorem c5_amended :
    (∀ sz key cs bytes chunk cs' bytes' p,
        chunkStep sz key cs bytes chunk = Except.ok (cs', bytes', some p) →
        p = Nat.min ((bytes ++ chunk).length * 100 / sz) 100 ∧
        clientsLookup cs' key
          = (clientsLookup cs key).map fun c => { c with size := sz, progress := p }) ∧
    (∀ w t, 1 ≤ t →
        (w + 1 < t → mainProgress w t = Nat.min (w * 100 / t) 100) ∧
        (t ≤ w → mainProgress w t = Nat.min (w * 100 / t) 100) ∧
        mainProgress (t - 1) t = 100) := by
  constructor
  · intro sz key cs bytes chunk cs' bytes' p h
    by_cases h5 : chunkProgress sz (bytes ++ chunk).length % 5 = 0
    · cases hl : clientsLookup cs key with
      | none => rw [chunkStep_miss sz key cs bytes chunk h5 hl] at h; cases h
      | some cl =>
        rw [chunkStep_push sz key cs bytes chunk cl h5 hl] at h
        obtain ⟨hcs, -, hp⟩ : clientsUpdate cs key sz (chunkProgress sz (bytes ++ chunk).length) = cs'
            ∧ bytes ++ chunk = bytes'
            ∧ chunkProgress sz (bytes ++ chunk).length = p := by
          injection h with h'
          exact ⟨congrArg Prod.fst h', congrArg Prod.fst (congrArg Prod.snd h'),
                 Option.some.inj (congrArg Prod.snd (congrArg Prod.snd h'))⟩
        constructor
        · rw [← hp]; rfl
        · rw [← hcs, clientsLookup_update]
          subst hp
          rw [hl]
    · rw [chunkStep_skip sz key cs bytes chunk h5] at h
      injection h with h'
      have : (none : Option Nat) = some p :=
        congrArg Prod.snd (congrArg Prod.snd h')
      cases this
  · intro w t ht
    refine ⟨?_, ?_, ?_⟩
    · intro hlt
      have hn : ¬ (t - 1 ≤ w) := by omega
      simp [mainProgress, hn]
    · intro hle
      have h1 : t - 1 ≤ w := by omega
      have h100 : 100 ≤ w * 100 / t := by
        calc 100 = t * 100 / t := (Nat.mul_div_right 100 (by omega)).symm
        _ ≤ w * 100 / t := Nat.div_le_div_right (by omega)
      simp only [mainProgress, if_pos h1]
      exact (Nat.min_eq_right h100).symm
    · simp [mainProgress]

/-- Witness for the amended C5 at concrete inputs. -/
theorem c5_amended_witness :
    (20 = Nat.min ((([] : List Nat) ++ [9, 9, 9, 9]).length * 100 / 20) 100 ∧
      clientsLookup [("a", (⟨20, 20, false⟩ : Client))] "a"
        = (clientsLookup [("a", (⟨0, 0, false⟩ : Client))] "a").map
            fun c => { c with size := 20, progress := 20 }) ∧
    mainProgress 150 200 = Nat.min (150 * 100 / 200) 100 :=
  ⟨c5_amended.1 20 "a" [("a", ⟨0, 0, false⟩)] [] [9, 9, 9, 9]
      [("a", ⟨20, 20, false⟩)] [9, 9, 9, 9] 20 rfl,
   (c5_amended.2 150 200 (by decide)).1 (by decide)⟩

/-- Each single step only appends to the message log. -/
theorem slotStep_msgs (st : SlotState) (op : SlotOp) :
    ∃ t, (slotStep st op).msgs = st.msgs ++ t := by
  cases op with
  | subscribe c =>
    cases h : st.slot with
    | none => exact ⟨[], by simp [slotStep, h]⟩
    | some old => exact ⟨[(old, SlotMsg.replaced)], by simp [slotStep, h]⟩
  | tick d =>
    cases h : st.slot with
    | none => exact ⟨[], by simp [slotStep, h]⟩
    | some ch => exact ⟨[(ch, SlotMsg.snap d)], by simp [slotStep, h]⟩

/-- Running any operation sequence only appends to the message log. -/
theorem runSlot_msgs (ops : List SlotOp) (st : SlotState) :
    ∃ t, (runSlot st ops).msgs = st.msgs ++ t := by
  induction ops generalizing st with
  | nil => exact ⟨[], by simp [runSlot]⟩
  | cons op rest ih =>
    obtain ⟨t1, h1⟩ := slotStep_msgs st op
    obtain ⟨t2, h2⟩ := ih (slotStep st op)
    refine ⟨t1 ++ t2, ?_⟩
    have : runSlot st (op :: rest) = runSlot (slotStep st op) rest := by
      simp [runSlot]
    rw [this, h2, h1, List.append_assoc]

/-- C6: a second aggregate subscriber arriving while a subscriber occupies
the slot causes CONNECTION_REPLACED to be sent on the old channel and the
new channel to be installed inside the same critical section (one atomic
`slotStep`), so in the delivered-message log the CONNECTION_REPLACED to the
displaced channel strictly precedes every snapshot delivered to the new
channel: if position j of the log carries a snapshot for the fresh channel
c2, some earlier position i carries the CONNECTION_REPLACED for the
displaced channel c1. -/
theorem c6_thm (ops1 ops2 : List SlotOp) (c1 c2 : Nat) (d : String) (j : Nat)
    (hslot : (runSlot initSlot ops1).slot = some c1)
    (hfresh : ∀ s, (c2, SlotMsg.snap s) ∉ (runSlot initSlot ops1).msgs)
    (hj : ((runSlot initSlot (ops1 ++ SlotOp.subscribe c2 :: ops2)).msgs)[j]?
        = some (c2, SlotMsg.snap d)) :
    ∃ i, i < j ∧
      ((runSlot initSlot (ops1 ++ SlotOp.subscribe c2 :: ops2)).msgs)[i]?
        = some (c1, SlotMsg.replaced) := by
  have hsplit : runSlot initSlot (ops1 ++ SlotOp.subscribe c2 :: ops2)
      = runSlot (slotStep (runSlot initSlot ops1) (SlotOp.subscribe c2)) ops2 := by
    simp [runSlot, List.foldl_append]
  have hstep : (slotStep (runSlot initSlot ops1) (SlotOp.subscribe c2)).msgs
      = (runSlot initSlot ops1).msgs ++ [(c1, SlotMsg.replaced)] := by
    simp [slotStep, hslot]
  obtain ⟨T, hT⟩ := runSlot_msgs ops2 (slotStep (runSlot initSlot ops1) (SlotOp.subscribe c2))
  have hmsgs : (runSlot initSlot (ops1 ++ SlotOp.subscribe c2 :: ops2)).msgs
      = ((runSlot initSlot ops1).msgs ++ [(c1, SlotMsg.replaced)]) ++ T := by
    rw [hsplit, hT, hstep]
  refine ⟨(runSlot initSlot ops1).msgs.length, ?_, ?_⟩
  · by_contra hle
    push_neg at hle
    have hjlt : j < ((runSlot initSlot ops1).msgs ++ [(c1, SlotMsg.replaced)]).length := by
      simp
      omega
    have hmem : (c2, SlotMsg.snap d) ∈ (runSlot initSlot ops1).msgs ++ [(c1, SlotMsg.replaced)] := by
      apply List.getElem?_mem
      rw [hmsgs, List.getElem?_append, if_pos hjlt] at hj
      exact hj
    rcases List.mem_append.1 hmem with hm | hm
    · exact hfresh d hm
    · simp at hm
  · rw [hmsgs, List.append_assoc,
      List.getElem?_append_right (le_refl (runSlot initSlot ops1).msgs.length)]
    simp

/-- Witness for C6 at a concrete input: subscriber 1 subscribes, subscriber
2 replaces it, one pump tick delivers a snapshot to channel 2; the
CONNECTION_REPLACED to channel 1 sits at position 0, before the snapshot at
position 1. -/
theorem c6_witness :
    ∃ i, i < 1 ∧
      ((runSlot initSlot ([SlotOp.subscribe 1] ++ SlotOp.subscribe 2 :: [SlotOp.tick "x"])).msgs)[i]?
        = some (1, SlotMsg.replaced) :=
  c6_thm [SlotOp.subscribe 1] [SlotOp.tick "x"] 1 2 "x" 1 rfl (by simp [runSlot, slotStep, initSlot]) rfl

/-- The pump count always equals 1 when a streamer is installed and 0
otherwise. -/
theorem runSlot_pumps_inv (ops : List SlotOp) (st : SlotState)
    (h : st.pumps = if st.slot.isSome then 1 else 0) :
    (runSlot st ops).pumps = if (runSlot st ops).slot.isSome then 1 else 0 := by
  induction ops generalizing st with
  | nil => simpa [runSlot] using h
  | cons op rest ih =>
    have hstep : (slotStep st op).pumps = if (slotStep st op).slot.isSome then 1 else 0 := by
      cases op with
      | subscribe c =>
        cases hs : st.slot with
        | none => simp [slotStep, hs] at h ⊢; omega
        | some old => simp [slotStep, hs] at h ⊢; omega
      | tick dd =>
        cases hs : st.slot with
        | none => simp [slotStep, hs] at h ⊢; omega
        | some ch => simp [slotStep, hs] at h ⊢; omega
    have : runSlot st (op :: rest) = runSlot (slotStep st op) rest := by
      simp [runSlot]
    rw [this]
    exact ih (slotStep st op) hstep

/-- C7: for every sequence of operations on a broadcast class starting from
the idle state, the number of spawned pump tasks is at most 1; a
subscription finding the slot empty spawns exactly one pump task
(Idle to Active), and a replacement subscription on an occupied slot spawns
none. -/
theorem c7_thm :
    (∀ ops : List SlotOp, (runSlot initSlot ops).pumps ≤ 1) ∧
    (∀ (st : SlotState) (c : Nat), st.slot = none →
        (slotStep st (SlotOp.subscribe c)).pumps = st.pumps + 1) ∧
    (∀ (st : SlotState) (c old : Nat), st.slot = some old →
        (slotStep st (SlotOp.subscribe c)).pumps = st.pumps) := by
  refine ⟨?_, ?_, ?_⟩
  · intro ops
    have h := runSlot_pumps_inv ops initSlot (by simp [initSlot])
    rw [h]
    split <;> omega
  · intro st c h
    simp [slotStep, h]
  · intro st c old h
    simp [slotStep, h]

/-- Witness for C7 at concrete inputs. -/
theorem c7_witness :
    (runSlot initSlot [SlotOp.subscribe 1, SlotOp.subscribe 2, SlotOp.subscribe 3]).pumps ≤ 1 ∧
    (slotStep initSlot (SlotOp.subscribe 7)).pumps = initSlot.pumps + 1 ∧
    (slotStep ⟨some 1, 1, []⟩ (SlotOp.subscribe 2)).pumps = (⟨some 1, 1, []⟩ : SlotState).pumps :=
  ⟨c7_thm.1 _, c7_thm.2.1 initSlot 7 rfl, c7_thm.2.2 ⟨some 1, 1, []⟩ 2 1 rfl⟩

/-- C8: a device-class pump tick that drained nothing from the dirty signal
reads no registry entry (its result is independent of the registry and
empty); a tick that drained a message pushes the snapshot holding exactly
the registry entries of the complement device class -- the mobile pump
reports the non-mobile entries and the desktop pump the mobile ones --
each rendered as a TrackFile record (size, name, progress). -/
theorem c8_thm (clients : Clients) :
    pumpTick Transmission.mobile none clients = none ∧
    pumpTick Transmission.desktop none clients = none ∧
    pumpTick Transmission.mobile (some ()) clients
      = some (pumpSnapshot Transmission.mobile clients) ∧
    pumpTick Transmission.desktop (some ()) clients
      = some (pumpSnapshot Transmission.desktop clients) ∧
    (∀ tf, tf ∈ pumpSnapshot Transmission.mobile clients ↔
        ∃ k c, (k, c) ∈ clients ∧ c.mobile = false ∧ tf = ⟨c.size, k, c.progress⟩) ∧
    (∀ tf, tf ∈ pumpSnapshot Transmission.desktop clients ↔
        ∃ k c, (k, c) ∈ clients ∧ c.mobile = true ∧ tf = ⟨c.size, k, c.progress⟩) := by
  refine ⟨rfl, rfl, rfl, rfl, ?_, ?_⟩
  · intro tf
    simp only [pumpSnapshot]
    constructor
    · intro h
      rcases List.mem_map.1 h with ⟨⟨k, c⟩, hmemf, hf⟩
      rcases List.mem_filter.1 hmemf with ⟨hmem, hpred⟩
      refine ⟨k, c, hmem, ?_, hf.symm⟩
      simpa using hpred
    · rintro ⟨k, c, hmem, hmob, hf⟩
      apply List.mem_map.2
      refine ⟨(k, c), List.mem_filter.2 ⟨hmem, ?_⟩, hf.symm⟩
      simp [hmob]
  · intro tf
    simp only [pumpSnapshot]
    constructor
    · intro h
      rcases List.mem_map.1 h with ⟨⟨k, c⟩, hmemf, hf⟩
      rcases List.mem_filter.1 hmemf with ⟨hmem, hpred⟩
      refine ⟨k, c, hmem, ?_, hf.symm⟩
      simpa using hpred
    · rintro ⟨k, c, hmem, hmob, hf⟩
      apply List.mem_map.2
      refine ⟨(k, c), List.mem_filter.2 ⟨hmem, ?_⟩, hf.symm⟩
      simp [hmob]

/-- Witness for C8 at a concrete registry. -/
theorem c8_witness :
    pumpTick Transmission.mobile none [("a", (⟨5, 50, false⟩ : Client))] = none ∧
    ((⟨5, "a", 50⟩ : TrackFile) ∈ pumpSnapshot Transmission.mobile [("a", (⟨5, 50, false⟩ : Client))] ↔
      ∃ k c, (k, c) ∈ [("a", (⟨5, 50, false⟩ : Client))] ∧ c.mobile = false ∧
        (⟨5, "a", 50⟩ : TrackFile) = ⟨c.size, k, c.progress⟩) :=
  ⟨(c8_thm [("a", ⟨5, 50, false⟩)]).1,
   (c8_thm [("a", ⟨5, 50, false⟩)]).2.2.2.2.1 ⟨5, "a", 50⟩⟩

/-- Main invariant of the chunk fold: with the key registered, the fold
never fails, the accumulated bytes grow by exactly the chunk lengths, the
pushed values are multiples of 5, non-decreasing, bounded by the current
progress, and once the accumulated length reaches the declared size the
last pushed value is 100. -/
theorem foldChunks_run (sz : Nat) (key : String) (hsz : 1 ≤ sz) :
    ∀ (chunks : List (List Nat)) (cs : Clients) (bytes pushed : List Nat),
      (clientsLookup cs key).isSome →
      (∀ q ∈ pushed, q % 5 = 0) →
      List.Chain' (· ≤ ·) pushed →
      (∀ q ∈ pushed, q ≤ chunkProgress sz bytes.length) →
      ∃ cs' bytes' pushed',
        foldChunks sz key cs bytes pushed chunks = .ok (cs', bytes', pushed') ∧
        bytes'.length = bytes.length + (chunks.map List.length).sum ∧
        (∀ q ∈ pushed', q % 5 = 0) ∧
        List.Chain' (· ≤ ·) pushed' ∧
        (∀ q ∈ pushed', q ≤ chunkProgress sz bytes'.length) ∧
        (chunks = [] → pushed' = pushed) ∧
        (chunks ≠ [] → bytes.length + (chunks.map List.length).sum = sz →
          pushed'.getLast? = some 100) := by
  intro chunks
  induction chunks with
  | nil =>
    intro cs bytes pushed hlk h5 hch hub
    exact ⟨cs, bytes, pushed, rfl, by simp, h5, hch, hub, fun _ => rfl,
      fun h _ => absurd rfl h⟩
  | cons c rest ih =>
    intro cs bytes pushed hlk h5 hch hub
    have hmono : chunkProgress sz bytes.length ≤ chunkProgress sz (bytes ++ c).length :=
      chunkProgress_mono sz (by simp)
    by_cases h5p : chunkProgress sz (bytes ++ c).length % 5 = 0
    · obtain ⟨cl, hcl⟩ := Option.isSome_iff_exists.1 hlk
      have hlk' :
          (clientsLookup (clientsUpdate cs key sz (chunkProgress sz (bytes ++ c).length)) key).isSome := by
        rw [clientsLookup_update, hcl]
        rfl
      have hstep := chunkStep_push sz key cs bytes c cl h5p hcl
      have h5' : ∀ q ∈ pushed ++ [chunkProgress sz (bytes ++ c).length], q % 5 = 0 := by
        intro q hq
        rcases List.mem_append.1 hq with h | h
        · exact h5 q h
        · rw [List.mem_singleton] at h
          subst h
          exact h5p
      have hch' : List.Chain' (· ≤ ·) (pushed ++ [chunkProgress sz (bytes ++ c).length]) := by
        rw [List.chain'_append]
        refine ⟨hch, List.chain'_singleton _, ?_⟩
        intro x hx y hy
        rw [List.head?_cons, Option.mem_def] at hy
        obtain rfl := Option.some.inj hy
        exact le_trans (hub x (List.mem_of_mem_getLast? hx)) hmono
      have hub' : ∀ q ∈ pushed ++ [chunkProgress sz (bytes ++ c).length],
          q ≤ chunkProgress sz (bytes ++ c).length := by
        intro q hq
        rcases List.mem_append.1 hq with h | h
        · exact le_trans (hub q h) hmono
        · rw [List.mem_singleton] at h
          subst h
          exact le_refl _
      obtain ⟨cs', bytes', pushed', hfold, hlen, h5f, hchf, hubf, hnilf, hlastf⟩ :=
        ih (clientsUpdate cs key sz (chunkProgress sz (bytes ++ c).length)) (bytes ++ c)
          (pushed ++ [chunkProgress sz (bytes ++ c).length]) hlk' h5' hch' hub'
      refine ⟨cs', bytes', pushed', ?_, ?_, h5f, hchf, hubf, ?_, ?_⟩
      · simp only [foldChunks, hstep]
        simpa using hfold
      · rw [hlen]
        simp
        omega
      · intro h
        cases h
      · intro _ hsum
        by_cases hrest : rest = []
        · subst hrest
          have hlc : (bytes ++ c).length = sz := by
            simp at hsum ⊢
            omega
          have hp100 : chunkProgress sz (bytes ++ c).length = 100 := by
            rw [hlc]
            exact chunkProgress_total sz hsz
          rw [hnilf rfl, hp100, List.getLast?_concat]
        · apply hlastf hrest
          simp at hsum ⊢
          omega
    · have hstep := chunkStep_skip sz key cs bytes c h5p
      have hub' : ∀ q ∈ pushed, q ≤ chunkProgress sz (bytes ++ c).length :=
        fun q hq => le_trans (hub q hq) hmono
      obtain ⟨cs', bytes', pushed', hfold, hlen, h5f, hchf, hubf, hnilf, hlastf⟩ :=
        ih cs (bytes ++ c) pushed hlk h5 hch hub'
      refine ⟨cs', bytes', pushed', ?_, ?_, h5f, hchf, hubf, ?_, ?_⟩
      · simp only [foldChunks, hstep]
        simpa using hfold
      · rw [hlen]
        simp
        omega
      · intro h
        cases h
      · intro _ hsum
        by_cases hrest : rest = []
        · exfalso
          subst hrest
          have hlc : (bytes ++ c).length = sz := by
            simp at hsum ⊢
            omega
          have hp100 : chunkProgress sz (bytes ++ c).length = 100 := by
            rw [hlc]
            exact chunkProgress_total sz hsz
          rw [hp100] at h5p
          exact h5p (by norm_num)
        · apply hlastf hrest
          simp at hsum ⊢
          omega

/-- C9: for every upload with declared size at least 1 and registered key
whose received byte stream has total length equal to the declared size, the
chunk fold succeeds and the sequence of values pushed on the per-transfer
notifier is non-decreasing, consists only of multiples of 5, and its last
element is exactly 100. -/
theorem c9_thm (sz : Nat) (key : String) (cs : Clients) (r : Client)
    (chunks : List (List Nat))
    (hsz : 1 ≤ sz)
    (hreg : clientsLookup cs key = some r)
    (hlen : (chunks.map List.length).sum = sz) :
    ∃ cs' bytes' pushed,
      foldChunks sz key cs [] [] chunks = .ok (cs', bytes', pushed) ∧
      List.Chain' (· ≤ ·) pushed ∧
      (∀ p ∈ pushed, p % 5 = 0) ∧
      pushed.getLast? = some 100 := by
  have hne : chunks ≠ [] := by
    intro h
    subst h
    simp at hlen
    omega
  obtain ⟨cs', bytes', pushed', hfold, -, h5, hch, -, -, hlast⟩ :=
    foldChunks_run sz key hsz chunks cs [] [] (by simp [hreg]) (by simp) (by simp) (by simp)
  exact ⟨cs', bytes', pushed', hfold, hch, h5, hlast hne (by simpa using hlen)⟩

/-- Witness for C9: declared size 2, registered key `a`, two 1-byte chunks;
the pushed values are 50 then 100. -/
theorem c9_witness :
    ∃ cs' bytes' pushed,
      foldChunks 2 "a" [("a", (⟨0, 0, false⟩ : Client))] [] [] [[9], [8]]
        = .ok (cs', bytes', pushed) ∧
      List.Chain' (· ≤ ·) pushed ∧
      (∀ p ∈ pushed, p % 5 = 0) ∧
      pushed.getLast? = some 100 :=
  c9_thm 2 "a" [("a", ⟨0, 0, false⟩)] ⟨0, 0, false⟩ [[9], [8]] (by decide) rfl (by decide)

end Droppa
